import Mathlib

/-
Verification of the 90C repository: the frontend JavaScript under
`src/90cent/static/js` and `src/unnamed`, and the trading-engine design
documented in `src/90cent/Documentation/GUIA.md` and the specification.
Strings are modelled as `List Char`, JS numbers as exact rationals.
-/

/-! ## Frontend: `escapeHtml` (scanner.js lines 1639-1648, portfolio.js lines 323-332) -/

/-- A JS value as it reaches `escapeHtml`/`formatCurrency`: `null`, `undefined`,
or an arbitrary value already coerced by `String(...)` to a string. -/
inductive JSVal where
  | null
  | undefined
  | str (s : List Char)

/-- JS `s.replace(/t/g, r)` for a single-character pattern `t`: every occurrence
of the character `t` is replaced by the string `r`. -/
def replCh (t : Char) (r : List Char) (s : List Char) : List Char :=
  s.flatMap (fun c => if c = t then r else [c])

/-- The single-quote character, code point 39. -/
def squote : Char := Char.ofNat 39

/-- Body of `escapeHtml` on a string: the five chained `.replace` calls of
scanner.js lines 1642-1647, applied in source order
(`&` first, then `<`, `>`, `"`, and the single quote). -/
def escapeStr (s : List Char) : List Char :=
  replCh squote "&#039;".data
    (replCh '"' "&quot;".data
      (replCh '>' "&gt;".data
        (replCh '<' "&lt;".data
          (replCh '&' "&amp;".data s))))

/-- The method `PolymarketScanner.escapeHtml` (scanner.js lines 1639-1648): returns the
empty string on `null`/`undefined`, otherwise escapes the stringified input. -/
def escapeHtml : JSVal → List Char
  | JSVal.null => []
  | JSVal.undefined => []
  | JSVal.str s => escapeStr s

/-! ## Frontend: `formatCurrency` (portfolio.js lines 314-317) -/

/-- A JS number: `NaN` or a finite value (modelled as an exact rational). -/
inductive JSNum where
  | nan
  | fin (q : ℚ)

/-- A value passed to `formatCurrency`: `null`, `undefined`, or a number. -/
inductive JSCurInput where
  | null
  | undefined
  | num (n : JSNum)

/-- Digit character for `d < 10`. -/
def digitChar (d : ℕ) : Char := Char.ofNat (48 + d)

/-- Decimal rendering of a natural number, most significant digit first. -/
def natChars (n : ℕ) : List Char :=
  if h : n < 10 then [digitChar n]
  else natChars (n / 10) ++ [digitChar (n % 10)]
  decreasing_by
    exact Nat.div_lt_self (Nat.pos_of_ne_zero (fun hz => by simp [hz] at h)) (by decide)

/-- Two-digit zero-padded rendering for `m < 100`. -/
def twoDigits (m : ℕ) : List Char := [digitChar (m / 10), digitChar (m % 10)]

/-- JS `x.toFixed(2)` for a non-negative value `q`: the integer `n` closest to
`100 * q` (ties taking the larger `n`, i.e. rounding half up for `q ≥ 0`),
rendered as `n / 100` with exactly two digits after the decimal point. -/
def toFixed2 (q : ℚ) : List Char :=
  let n : ℕ := (Int.floor (q * 100 + 1 / 2)).toNat
  natChars (n / 100) ++ '.' :: twoDigits (n % 100)

/-- The method `PortfolioApp.formatCurrency` (portfolio.js lines 314-317):
`null`, `undefined` and `NaN` render as `"$0"`; a finite value renders as
`'$' ++ Math.abs(value).toFixed(2)`. -/
def formatCurrency : JSCurInput → List Char
  | JSCurInput.null => "$0".data
  | JSCurInput.undefined => "$0".data
  | JSCurInput.num JSNum.nan => "$0".data
  | JSCurInput.num (JSNum.fin q) => '$' :: toFixed2 |q|

/-! ## Frontend: `updateWheelVisualization` (src/unnamed/part_000 lines 297-318) -/

/-- The outputs `updateWheelVisualization` writes to the DOM/CSS: the red and
black slot counts and the two gradient percentages. -/
structure WheelView where
  redSlots : ℤ
  blackSlots : ℤ
  redPercentage : ℚ
  blackPercentage : ℚ

/-- The method `PolymarketCasino.updateWheelVisualization` (part_000 lines 297-318):
with `totalSlots = 37` and `zeroSlots = 1`,
`redSlots = Math.floor(upProb * (totalSlots - zeroSlots))`,
`blackSlots = (totalSlots - zeroSlots) - redSlots`, and each percentage is
`slots / totalSlots * 100`. -/
def updateWheelVisualization (yes_price : ℚ) : WheelView :=
  let totalSlots : ℤ := 37
  let zeroSlots : ℤ := 1
  let redSlots : ℤ := Int.floor (yes_price * ((totalSlots : ℚ) - (zeroSlots : ℚ)))
  let blackSlots : ℤ := (totalSlots - zeroSlots) - redSlots
  { redSlots := redSlots
    blackSlots := blackSlots
    redPercentage := ((redSlots : ℚ) / (totalSlots : ℚ)) * 100
    blackPercentage := ((blackSlots : ℚ) / (totalSlots : ℚ)) * 100 }

/-! ## Trading engine (spec-modelled)

The Python trading engine (`trading_bot.py`, `order_manager.py`,
`position_tracker.py`, `claim_utils.py`, `config.py`) is documented in
`Documentation/GUIA.md` and the specification but its code is not among the
provided sources; the definitions below are modelled from the specification. -/

/-- Modelled from the spec: `BUY_ONCE_CONFIG` (GUIA.md lines 95-103, spec
section 4.2) with the missing `config.py` defaults
`min_price = 0.98`, `max_price = 0.99`, `order_size = 140.0`,
`stop_loss_price = 0.92`, `trailing_stop_distance = 0.05`,
`max_time_before_resolution = 180`, and the documented sell target of
about `0.999`. -/
structure BuyOnceConfig where
  min_price : ℚ
  max_price : ℚ
  order_size : ℚ
  stop_loss_price : ℚ
  trailing_stop_distance : ℚ
  sell_target : ℚ
  max_time_before_resolution : ℚ

/-- The documented defaults of `BUY_ONCE_CONFIG`. -/
def defaultBuyOnce : BuyOnceConfig :=
  { min_price := 98 / 100
    max_price := 99 / 100
    order_size := 140
    stop_loss_price := 92 / 100
    trailing_stop_distance := 5 / 100
    sell_target := 999 / 1000
    max_time_before_resolution := 180 }

/-- Modelled from the spec: the Strategy Engine states of section 4.2. -/
inductive StratState where
  | WATCHING
  | BUY_PENDING
  | HOLDING
  | SELL_PENDING
  | SOLD
  | RESOLVED_WIN
  | RESOLVED_LOSS
deriving DecidableEq

/-- A price tick as seen by a market's Strategy Engine: best ask for the YES
side and the market's remaining time to resolution (seconds). -/
structure PriceTick where
  ask : ℚ
  time_to_resolution : ℚ

/-- Modelled from the spec: the missing Strategy Engine `WATCHING` step
(spec section 4.2): on a tick, buy `order_size` shares and move to
`BUY_PENDING` exactly when `min_price ≤ ask ≤ max_price` and the remaining
time is at most `max_time_before_resolution`; otherwise stay in `WATCHING`
with no order. The second component is the size of the submitted buy order,
if any. -/
def watchingStep (cfg : BuyOnceConfig) (t : PriceTick) : StratState × Option ℚ :=
  if cfg.min_price ≤ t.ask ∧ t.ask ≤ cfg.max_price ∧
      t.time_to_resolution ≤ cfg.max_time_before_resolution then
    (StratState.BUY_PENDING, some cfg.order_size)
  else
    (StratState.WATCHING, none)

/-! ## Position & Ledger Store (spec-modelled) -/

/-- Modelled from the spec: position lifecycle states (spec section 3;
`NONE` is represented by absence from the store). -/
inductive PosState where
  | PENDING_ENTRY
  | OPEN
  | PENDING_EXIT
  | CLOSED
deriving DecidableEq

/-- Whether a lifecycle state counts against the one-position-per-market
invariant (`PENDING_ENTRY`, `OPEN` or `PENDING_EXIT`). -/
def isActive : PosState → Bool
  | PosState.CLOSED => false
  | _ => true

/-- Modelled from the spec: a stored position record (spec section 3),
reduced to the fields the no-pyramiding invariant concerns. -/
structure StoredPos where
  market : ℕ
  state : PosState

/-- Modelled from the spec: the Position & Ledger Store's position table. -/
structure Store where
  positions : List StoredPos

/-- The no-pyramiding invariant: for every market, at most one position in a
lifecycle state among `PENDING_ENTRY`, `OPEN`, `PENDING_EXIT`. -/
def NoPyramiding (st : Store) : Prop :=
  ∀ m : ℕ,
    (st.positions.filter (fun p => p.market == m && isActive p.state)).length ≤ 1

/-- Modelled from the spec: the store's transactional mutations
(spec sections 3 and 5). `openEntry` creates a `PENDING_ENTRY` position only
if the market has no active position (the transactional guard); the others
advance the lifecycle of the market's positions in place. -/
inductive StoreOp where
  | openEntry (m : ℕ)
  | fillEntry (m : ℕ)
  | requestExit (m : ℕ)
  | closePos (m : ℕ)

/-- Advance every position of market `m` currently in state `src` to `dst`. -/
def setState (m : ℕ) (src dst : PosState) (st : Store) : Store :=
  ⟨st.positions.map (fun p =>
    if p.market == m && p.state == src then { p with state := dst } else p)⟩

/-- Modelled from the spec: apply one transactional store operation. -/
def applyOp : StoreOp → Store → Store
  | StoreOp.openEntry m, st =>
      if st.positions.any (fun p => p.market == m && isActive p.state) then st
      else ⟨⟨m, PosState.PENDING_ENTRY⟩ :: st.positions⟩
  | StoreOp.fillEntry m, st => setState m PosState.PENDING_ENTRY PosState.OPEN st
  | StoreOp.requestExit m, st => setState m PosState.OPEN PosState.PENDING_EXIT st
  | StoreOp.closePos m, st => setState m PosState.PENDING_EXIT PosState.CLOSED st

/-- Run a serialized history of store operations from a starting store (the
store serializes all mutations, so any concurrent execution is one such
history). -/
def runOps (st : Store) (ops : List StoreOp) : Store :=
  ops.foldl (fun s o => applyOp o s) st

/-! ## Trade records and the persisted ledger (spec-modelled) -/

/-- Modelled from the spec: a trade record of the missing
`position_tracker.py` (spec section 3): a matched buy+sell pair with realized
P&L, immutable once written. -/
structure TradeRecord where
  market : ℕ
  entry_price : ℚ
  exit_price : ℚ
  size : ℚ
  fees : ℚ
  realized_pnl : ℚ
deriving DecidableEq

/-- Modelled from the spec: closing a trade records realized P&L
`(exit_price - entry_price) * size` minus fees (spec section 8, round-trip
property). -/
def closeTrade (m : ℕ) (entry exitP sz fees : ℚ) : TradeRecord :=
  { market := m
    entry_price := entry
    exit_price := exitP
    size := sz
    fees := fees
    realized_pnl := (exitP - entry) * sz - fees }

/-- Modelled from the spec: on-disk encoding of one trade record (the
persisted ledger of spec section 6, e.g. `positions.json`). -/
def encodeTrade (t : TradeRecord) : List ℚ :=
  [(t.market : ℚ), t.entry_price, t.exit_price, t.size, t.fees, t.realized_pnl]

/-- Modelled from the spec: decoding one persisted trade record at process
restart. -/
def decodeTrade : List ℚ → Option TradeRecord
  | [m, en, ex, sz, fe, pnl] =>
      some { market := m.num.toNat
             entry_price := en
             exit_price := ex
             size := sz
             fees := fe
             realized_pnl := pnl }
  | _ => none

/-- Modelled from the spec: appending a closed trade to the append-only
ledger. -/
def appendTrade (led : List TradeRecord) (t : TradeRecord) : List TradeRecord :=
  led ++ [t]

/-! ## Risk Manager and the HOLDING step (spec-modelled) -/

/-- Modelled from the spec: the Risk Manager's verdict (spec section 4.3). -/
inductive RiskDecision where
  | HOLD
  | FORCE_SELL
deriving DecidableEq

/-- Modelled from the spec: a position in `HOLDING` as the Risk Manager sees
it: entry price, trailing-stop high-water mark, stop-loss price. -/
structure HoldingPos where
  entry_price : ℚ
  hwm : ℚ
  stop_loss_price : ℚ

/-- Modelled from the spec: the trailing-stop ratchet (spec section 4.3,
rule 2): each tick raises the high-water mark to the highest price observed
since entry. -/
def tickUpdate (p : HoldingPos) (price : ℚ) : HoldingPos :=
  { p with hwm := max p.hwm price }

/-- Process a sequence of price ticks against a `HOLDING` position. -/
def runTicks (p : HoldingPos) (ticks : List ℚ) : HoldingPos :=
  ticks.foldl tickUpdate p

/-- Modelled from the spec: `evaluate(position, tick)` of the missing Risk
Manager (spec section 4.3), rules in order: stop-loss first
(`price ≤ stop_loss_price`), then trailing stop (price has fallen
`trailing_stop_distance` below the high-water mark); the third,
portfolio-level rule concerns new buys only and never yields `FORCE_SELL`. -/
def evaluate (cfg : BuyOnceConfig) (p : HoldingPos) (price : ℚ) : RiskDecision :=
  if price ≤ p.stop_loss_price then RiskDecision.FORCE_SELL
  else if price ≤ p.hwm - cfg.trailing_stop_distance then RiskDecision.FORCE_SELL
  else RiskDecision.HOLD

/-- How an exit was triggered, for P&L attribution (spec section 4.3). -/
inductive ExitKind where
  | riskExit
  | strategyExit
deriving DecidableEq

/-- Modelled from the spec: the Strategy Engine's `HOLDING` step
(spec sections 4.2 and 4.3): the Risk Manager is consulted first and a
forced sell takes priority over the strategy's own target-sell condition
(`ask ≥ sell_target`); the attribution tag records which exit fired. -/
def holdingStep (cfg : BuyOnceConfig) (p : HoldingPos) (price : ℚ) :
    Option ExitKind × StratState :=
  match evaluate cfg p price with
  | RiskDecision.FORCE_SELL => (some ExitKind.riskExit, StratState.SELL_PENDING)
  | RiskDecision.HOLD =>
      if cfg.sell_target ≤ price then
        (some ExitKind.strategyExit, StratState.SELL_PENDING)
      else (none, StratState.HOLDING)

/-! ## Auto-Claim Scheduler (spec-modelled) -/

/-- Modelled from the spec: claim statuses of a `ClaimableItem`
(spec section 3). -/
inductive ClaimStatus where
  | PENDING
  | SUBMITTED
  | CONFIRMED
  | FAILED
deriving DecidableEq

/-- Modelled from the spec: a `ClaimableItem` (spec section 3). -/
structure ClaimableItem where
  market : ℕ
  status : ClaimStatus
deriving DecidableEq

/-- Modelled from the spec: one item of the missing Auto-Claim sweep
(`claim_utils.py`, spec section 4.5): a `CONFIRMED` item is detected before
submission and left untouched with no transaction; `PENDING` and `FAILED`
items are submitted (the second component is the market of the submitted
claim transaction, if any); a `SUBMITTED` item awaits confirmation. -/
def processClaim (it : ClaimableItem) : ClaimableItem × Option ℕ :=
  match it.status with
  | ClaimStatus.CONFIRMED => (it, none)
  | ClaimStatus.SUBMITTED => (it, none)
  | ClaimStatus.PENDING => ({ it with status := ClaimStatus.SUBMITTED }, some it.market)
  | ClaimStatus.FAILED => ({ it with status := ClaimStatus.SUBMITTED }, some it.market)

/-- Modelled from the spec: one Auto-Claim sweep over the claim queue,
returning the updated queue and the claim transactions submitted. -/
def sweep (items : List ClaimableItem) : List ClaimableItem × List ℕ :=
  items.foldr
    (fun it acc =>
      let r := processClaim it
      (r.1 :: acc.1, match r.2 with | some tx => tx :: acc.2 | none => acc.2))
    ([], [])

/-! ## Order Executor (spec-modelled) -/

/-- Modelled from the spec: the Order Executor's per-market slots
(spec sections 4.4 and 5): the set of markets that currently hold an
outstanding order. -/
structure Executor where
  occupied : List ℕ

/-- Modelled from the spec: `submit(order)` for an order on market `m`
(spec section 4.4): if the market's slot is taken the order is rejected
locally and the executor is unchanged; otherwise the slot is taken and the
order is accepted. -/
def submit (ex : Executor) (m : ℕ) : Executor × Bool :=
  if m ∈ ex.occupied then (ex, false)
  else ({ occupied := m :: ex.occupied }, true)

/-- Two submissions in sequence (the per-market lock serializes concurrent
submissions, so a concurrent pair executes as one of the two orders; by
symmetry we model the first-then-second order). -/
def submitTwo (ex : Executor) (m1 m2 : ℕ) : Executor × Bool × Bool :=
  let r1 := submit ex m1
  let r2 := submit r1.1 m2
  (r2.1, r1.2, r2.2)

/-! ## Helper lemmas -/

theorem mem_replCh {c t : Char} {r s : List Char} (h : c ∈ replCh t r s) :
    c ∈ r ∨ (c ∈ s ∧ c ≠ t) := by
  unfold replCh at h
  rw [List.mem_flatMap] at h
  obtain ⟨a, ha, hc⟩ := h
  by_cases hat : a = t
  · rw [if_pos hat] at hc
    exact Or.inl hc
  · rw [if_neg hat] at hc
    rw [List.mem_singleton] at hc
    subst hc
    exact Or.inr ⟨ha, hat⟩

theorem replCh_append (t : Char) (r : List Char) (a b : List Char) :
    replCh t r (a ++ b) = replCh t r a ++ replCh t r b := by
  unfold replCh
  exact List.flatMap_append a b _

theorem escapeStr_append (a b : List Char) :
    escapeStr (a ++ b) = escapeStr a ++ escapeStr b := by
  unfold escapeStr
  rw [replCh_append, replCh_append, replCh_append, replCh_append, replCh_append]

theorem ent_amp_ok : ∀ c ∈ "&amp;".data, c ≠ '<' ∧ c ≠ '>' ∧ c ≠ '"' ∧ c ≠ squote := by
  decide

theorem ent_lt_ok : ∀ c ∈ "&lt;".data, c ≠ '<' ∧ c ≠ '>' ∧ c ≠ '"' ∧ c ≠ squote := by
  decide

theorem ent_gt_ok : ∀ c ∈ "&gt;".data, c ≠ '<' ∧ c ≠ '>' ∧ c ≠ '"' ∧ c ≠ squote := by
  decide

theorem ent_quot_ok : ∀ c ∈ "&quot;".data, c ≠ '<' ∧ c ≠ '>' ∧ c ≠ '"' ∧ c ≠ squote := by
  decide

theorem ent_039_ok : ∀ c ∈ "&#039;".data, c ≠ '<' ∧ c ≠ '>' ∧ c ≠ '"' ∧ c ≠ squote := by
  decide

/-! ## Claims about the frontend -/

/-- Claim C8: for every finite number `v`, `formatCurrency(v)` is the string
`'$'` followed by the absolute value of `v` formatted to two decimals, hence
`formatCurrency(v) = formatCurrency(-v)` for every `v` (a negative P&L is
rendered without a minus sign), and `null`, `undefined` and `NaN` all render
as `"$0"`. -/
theorem claim_C8 :
    (∀ q : ℚ, formatCurrency (JSCurInput.num (JSNum.fin q)) = '$' :: toFixed2 |q|) ∧
    (∀ q : ℚ, formatCurrency (JSCurInput.num (JSNum.fin q)) =
      formatCurrency (JSCurInput.num (JSNum.fin (-q)))) ∧
    formatCurrency JSCurInput.null = "$0".data ∧
    formatCurrency JSCurInput.undefined = "$0".data ∧
    formatCurrency (JSCurInput.num JSNum.nan) = "$0".data := by
  refine ⟨fun q => rfl, fun q => ?_, rfl, rfl, rfl⟩
  simp only [formatCurrency, abs_neg]

/-- Claim C9: `escapeHtml` returns a string containing none of the raw
characters `<`, `>`, `"`, or the single quote; each such character and each
`&` is replaced by its HTML entity; and `null` and `undefined` yield the
empty string. -/
theorem claim_C9 :
    (∀ v : JSVal, ∀ c ∈ escapeHtml v, c ≠ '<' ∧ c ≠ '>' ∧ c ≠ '"' ∧ c ≠ squote) ∧
    escapeHtml JSVal.null = [] ∧
    escapeHtml JSVal.undefined = [] ∧
    (∀ a b, escapeStr (a ++ '&' :: b) = escapeStr a ++ "&amp;".data ++ escapeStr b) ∧
    (∀ a b, escapeStr (a ++ '<' :: b) = escapeStr a ++ "&lt;".data ++ escapeStr b) ∧
    (∀ a b, escapeStr (a ++ '>' :: b) = escapeStr a ++ "&gt;".data ++ escapeStr b) ∧
    (∀ a b, escapeStr (a ++ '"' :: b) = escapeStr a ++ "&quot;".data ++ escapeStr b) ∧
    (∀ a b, escapeStr (a ++ squote :: b) = escapeStr a ++ "&#039;".data ++ escapeStr b) := by
  have hsing : ∀ (x : Char) (ent : List Char), escapeStr [x] = ent →
      ∀ a b, escapeStr (a ++ x :: b) = escapeStr a ++ ent ++ escapeStr b := by
    intro x ent hx a b
    have : a ++ x :: b = a ++ ([x] ++ b) := by simp
    rw [this, escapeStr_append, escapeStr_append, hx, List.append_assoc]
  refine ⟨?_, rfl, rfl, hsing '&' _ rfl, hsing '<' _ rfl, hsing '>' _ rfl,
    hsing '"' _ rfl, hsing squote _ rfl⟩
  intro v c hc
  cases v with
  | null => simp [escapeHtml] at hc
  | undefined => simp [escapeHtml] at hc
  | str s =>
    simp only [escapeHtml, escapeStr] at hc
    rcases mem_replCh hc with h | ⟨hc, hq⟩
    · exact ent_039_ok c h
    rcases mem_replCh hc with h | ⟨hc, hqq⟩
    · exact ent_quot_ok c h
    rcases mem_replCh hc with h | ⟨hc, hgt⟩
    · exact ent_gt_ok c h
    rcases mem_replCh hc with h | ⟨hc, hlt⟩
    · exact ent_lt_ok c h
    rcases mem_replCh hc with h | ⟨hc, hamp⟩
    · exact ent_amp_ok c h
    · exact ⟨hlt, hgt, hqq, hq⟩

/-- Witness for C9: the character `&` of `escapeHtml("<")` is none of the raw
special characters. -/
theorem claim_C9_witness :
    '&' ≠ '<' ∧ '&' ≠ '>' ∧ '&' ≠ '"' ∧ '&' ≠ squote :=
  claim_C9.1 (JSVal.str ['<']) '&' (by decide)

/-- Claim C10: for `yes_price` `p` in `[0, 1]`,
`redSlots = floor(36 * p)` and `blackSlots = 36 - redSlots`, so
`redSlots + blackSlots = 36` for every `p`; the red and black percentages are
each taken over 37 slots, so they sum to `3600 / 37`, never `100`. -/
theorem claim_C10 (p : ℚ) (h0 : 0 ≤ p) (h1 : p ≤ 1) :
    (updateWheelVisualization p).redSlots = Int.floor (36 * p) ∧
    (updateWheelVisualization p).blackSlots = 36 - Int.floor (36 * p) ∧
    (updateWheelVisualization p).redSlots + (updateWheelVisualization p).blackSlots = 36 ∧
    (updateWheelVisualization p).redPercentage + (updateWheelVisualization p).blackPercentage
      = 3600 / 37 ∧
    ((3600 : ℚ) / 37 ≠ 100) := by
  refine ⟨?_, ?_, ?_, ?_, by norm_num⟩ <;>
    simp only [updateWheelVisualization]
  · norm_num [mul_comm]
  · norm_num [mul_comm]
  · ring
  · push_cast
    field_simp
    ring

/-- Witness for C10: at `p = 1/2` the wheel has 18 red and 18 black slots and
the percentages sum to `3600 / 37`. -/
theorem claim_C10_witness :
    (updateWheelVisualization (1 / 2)).redSlots +
      (updateWheelVisualization (1 / 2)).blackSlots = 36 ∧
    (updateWheelVisualization (1 / 2)).redPercentage +
      (updateWheelVisualization (1 / 2)).blackPercentage = 3600 / 37 :=
  ⟨(claim_C10 (1 / 2) (by norm_num) (by norm_num)).2.2.1,
   (claim_C10 (1 / 2) (by norm_num) (by norm_num)).2.2.2.1⟩

/-! ## Claims about the trading engine (spec-modelled) -/

/-- Claim C1: in `WATCHING`, a tick submits a buy of `order_size` shares and
moves to `BUY_PENDING` exactly when `min_price ≤ ask ≤ max_price` and the
time to resolution is at most `max_time_before_resolution`; otherwise the
engine stays in `WATCHING` with no order — in particular a tick inside the
price band whose remaining time exceeds the ceiling submits nothing. -/
theorem claim_C1 :
    (∀ (cfg : BuyOnceConfig) (t : PriceTick),
      watchingStep cfg t = (StratState.BUY_PENDING, some cfg.order_size) ↔
        (cfg.min_price ≤ t.ask ∧ t.ask ≤ cfg.max_price ∧
          t.time_to_resolution ≤ cfg.max_time_before_resolution)) ∧
    (∀ (cfg : BuyOnceConfig) (t : PriceTick),
      watchingStep cfg t = (StratState.BUY_PENDING, some cfg.order_size) ∨
      watchingStep cfg t = (StratState.WATCHING, none)) ∧
    (∀ t : PriceTick,
      defaultBuyOnce.min_price ≤ t.ask → t.ask ≤ defaultBuyOnce.max_price →
      defaultBuyOnce.max_time_before_resolution < t.time_to_resolution →
      watchingStep defaultBuyOnce t = (StratState.WATCHING, none)) := by
  refine ⟨fun cfg t => ?_, fun cfg t => ?_, fun t h1 h2 h3 => ?_⟩
  · unfold watchingStep
    split_ifs with h
    · simp [h]
    · simp only [Prod.mk.injEq]
      exact iff_of_false (by simp) h
  · unfold watchingStep
    split_ifs <;> simp
  · unfold watchingStep
    rw [if_neg]
    intro h
    exact absurd h.2.2 (not_le.mpr h3)

/-- Witness for C1: with the default configuration, the tick with ask
`0.985` (inside the band) and 200 seconds remaining (above the 180-second
ceiling) submits no buy order and stays in `WATCHING`. -/
theorem claim_C1_witness :
    watchingStep defaultBuyOnce ⟨985 / 1000, 200⟩ = (StratState.WATCHING, none) :=
  claim_C1.2.2 ⟨985 / 1000, 200⟩ (by norm_num [defaultBuyOnce])
    (by norm_num [defaultBuyOnce]) (by norm_num [defaultBuyOnce])

/-- Claim C3: a closed trade's realized P&L equals
`(exit_price - entry_price) * size` minus fees; decoding the persisted
encoding of a trade record restores it exactly (so recomputation after a
restart yields the same value); and appending to the ledger never alters the
records already written. -/
theorem claim_C3 :
    (∀ (m : ℕ) (entry exitP sz fees : ℚ),
      (closeTrade m entry exitP sz fees).realized_pnl = (exitP - entry) * sz - fees) ∧
    (∀ t : TradeRecord, decodeTrade (encodeTrade t) = some t) ∧
    (∀ (led : List TradeRecord) (t : TradeRecord),
      (appendTrade led t).take led.length = led) := by
  refine ⟨fun m entry exitP sz fees => rfl, fun t => ?_, fun led t => ?_⟩
  · cases t
    simp [encodeTrade, decodeTrade]
  · simp [appendTrade]

/-- Claim C4: the trailing-stop high-water mark never decreases: it is
non-decreasing on each tick and across any tick sequence, it bounds every
observed price, and it only ever equals the entry anchor or one of the
observed prices (it is raised exactly to the highest price seen). -/
theorem claim_C4 :
    (∀ (p : HoldingPos) (price : ℚ), p.hwm ≤ (tickUpdate p price).hwm) ∧
    (∀ (p : HoldingPos) (ticks : List ℚ), p.hwm ≤ (runTicks p ticks).hwm) ∧
    (∀ (p : HoldingPos) (ticks : List ℚ), ∀ x ∈ ticks, x ≤ (runTicks p ticks).hwm) ∧
    (∀ (p : HoldingPos) (ticks : List ℚ),
      (runTicks p ticks).hwm = p.hwm ∨ (runTicks p ticks).hwm ∈ ticks) := by
  have mono : ∀ (ticks : List ℚ) (p : HoldingPos), p.hwm ≤ (runTicks p ticks).hwm := by
    intro ticks
    induction ticks with
    | nil => intro p; exact le_refl _
    | cons t ts ih =>
        intro p
        exact le_trans (le_max_left p.hwm t) (ih (tickUpdate p t))
  refine ⟨fun p price => le_max_left _ _, fun p ticks => mono ticks p, ?_, ?_⟩
  · intro p ticks
    induction ticks generalizing p with
    | nil => intro x hx; simp at hx
    | cons t ts ih =>
        intro x hx
        rcases List.mem_cons.mp hx with hx | hx
        · subst hx
          exact le_trans (le_max_right p.hwm x) (mono ts (tickUpdate p x))
        · exact ih (tickUpdate p t) x hx
  · intro p ticks
    induction ticks generalizing p with
    | nil => exact Or.inl rfl
    | cons t ts ih =>
        rcases ih (tickUpdate p t) with h | h
        · rw [runTicks, List.foldl_cons, ← runTicks, h]
          rcases max_choice p.hwm t with hm | hm
          · exact Or.inl hm
          · exact Or.inr (by rw [tickUpdate, hm]; exact List.mem_cons_self t ts)
        · exact Or.inr (List.mem_cons_of_mem t h)

/-- Witness for C4: after ticks `[0.99, 0.985]` from an entry anchor of
`0.98`, the high-water mark is at least the observed price `0.99`. -/
theorem claim_C4_witness :
    (99 / 100 : ℚ) ≤ (runTicks ⟨98 / 100, 98 / 100, 92 / 100⟩
      [99 / 100, 985 / 1000]).hwm :=
  claim_C4.2.2.1 ⟨98 / 100, 98 / 100, 92 / 100⟩ [99 / 100, 985 / 1000]
    (99 / 100) (List.mem_cons_self _ _)

/-- Claim C5: the Risk Manager returns `FORCE_SELL` whenever the price is at
most `stop_loss_price` (the stop-loss rule is checked first), and in the
`HOLDING` step a risk-forced sell takes priority over the strategy's own
target-sell condition when both hold on the same tick. -/
theorem claim_C5 :
    (∀ (cfg : BuyOnceConfig) (p : HoldingPos) (price : ℚ),
      price ≤ p.stop_loss_price → evaluate cfg p price = RiskDecision.FORCE_SELL) ∧
    (∀ (cfg : BuyOnceConfig) (p : HoldingPos) (price : ℚ),
      evaluate cfg p price = RiskDecision.FORCE_SELL → cfg.sell_target ≤ price →
      holdingStep cfg p price = (some ExitKind.riskExit, StratState.SELL_PENDING)) := by
  refine ⟨fun cfg p price h => ?_, fun cfg p price h htarget => ?_⟩
  · unfold evaluate
    rw [if_pos h]
  · unfold holdingStep
    rw [h]

/-- Witness for C5: at the default configuration, price `0.90` against a
stop-loss of `0.92` forces a sell, and with a high-water mark of `2` the
tick at price `1` (which also satisfies the `0.999` sell target) exits as a
risk-attributed sell. -/
theorem claim_C5_witness :
    evaluate defaultBuyOnce ⟨98 / 100, 98 / 100, 92 / 100⟩ (90 / 100)
      = RiskDecision.FORCE_SELL ∧
    holdingStep defaultBuyOnce ⟨98 / 100, 2, 92 / 100⟩ 1
      = (some ExitKind.riskExit, StratState.SELL_PENDING) :=
  ⟨claim_C5.1 defaultBuyOnce ⟨98 / 100, 98 / 100, 92 / 100⟩ (90 / 100) (by norm_num),
   claim_C5.2 defaultBuyOnce ⟨98 / 100, 2, 92 / 100⟩ 1
     (by norm_num [evaluate, defaultBuyOnce]) (by norm_num [defaultBuyOnce])⟩

/-- Claim C6: processing a `CONFIRMED` claimable item is a no-op detected
before submission — no claim transaction, item unchanged — so re-running the
Auto-Claim sweep over already-confirmed items returns the queue unchanged
with no transactions (idempotence). -/
theorem claim_C6 :
    (∀ it : ClaimableItem, it.status = ClaimStatus.CONFIRMED →
      processClaim it = (it, none)) ∧
    (∀ items : List ClaimableItem,
      (∀ it ∈ items, it.status = ClaimStatus.CONFIRMED) →
      sweep items = (items, [])) := by
  have hone : ∀ it : ClaimableItem, it.status = ClaimStatus.CONFIRMED →
      processClaim it = (it, none) := by
    intro it h
    unfold processClaim
    rw [h]
  refine ⟨hone, ?_⟩
  intro items
  induction items with
  | nil => intro _; rfl
  | cons it tl ih =>
      intro h
      have hit := hone it (h it (List.mem_cons_self _ _))
      have htl := ih (fun x hx => h x (List.mem_cons_of_mem _ hx))
      simp only [sweep, List.foldr_cons] at htl ⊢
      rw [hit, htl]

/-- Witness for C6: sweeping a queue holding one `CONFIRMED` item returns it
unchanged and submits no claim transaction. -/
theorem claim_C6_witness :
    sweep [⟨5, ClaimStatus.CONFIRMED⟩] = ([⟨5, ClaimStatus.CONFIRMED⟩], []) :=
  claim_C6.2 [⟨5, ClaimStatus.CONFIRMED⟩] (by decide)

/-- Claim C7: the Order Executor's per-market slot admits at most one
outstanding order per market: of two submissions for the same free market,
exactly the first is accepted and the second is rejected locally without
changing the executor; submissions for two distinct free markets are both
accepted; and the slot set never acquires duplicates. -/
theorem claim_C7 :
    (∀ (ex : Executor) (m : ℕ), m ∉ ex.occupied →
      (submitTwo ex m m).2.1 = true ∧ (submitTwo ex m m).2.2 = false) ∧
    (∀ (ex : Executor) (m : ℕ), m ∈ ex.occupied → submit ex m = (ex, false)) ∧
    (∀ (ex : Executor) (m1 m2 : ℕ), m1 ≠ m2 →
      m1 ∉ ex.occupied → m2 ∉ ex.occupied →
      (submitTwo ex m1 m2).2.1 = true ∧ (submitTwo ex m1 m2).2.2 = true) ∧
    (∀ (ex : Executor) (m : ℕ), ex.occupied.Nodup → ((submit ex m).1).occupied.Nodup) := by
  refine ⟨fun ex m h => ?_, fun ex m h => ?_, fun ex m1 m2 hne h1 h2 => ?_, fun ex m h => ?_⟩
  · unfold submitTwo submit
    rw [if_neg h]
    simp
  · unfold submit
    rw [if_pos h]
  · unfold submitTwo submit
    rw [if_neg h1]
    simp only
    rw [if_neg (by simp [hne.symm, h2])]
    simp
  · unfold submit
    split_ifs with hm
    · exact h
    · exact List.Nodup.cons hm h

/-- Witness for C7: on an empty executor, of two submissions for market `0`
the first is accepted and the second rejected. -/
theorem claim_C7_witness :
    (submitTwo ⟨[]⟩ 0 0).2.1 = true ∧ (submitTwo ⟨[]⟩ 0 0).2.2 = false :=
  claim_C7.1 ⟨[]⟩ 0 (by simp)

/-! ## The no-pyramiding invariant (C2) -/

theorem length_filter_map_le {α : Type} (f : α → α) (q : α → Bool)
    (h : ∀ x, q (f x) = true → q x = true) (l : List α) :
    ((l.map f).filter q).length ≤ (l.filter q).length := by
  induction l with
  | nil => simp
  | cons a tl ih =>
      simp only [List.map_cons, List.filter_cons]
      by_cases hfa : q (f a) = true
      · rw [if_pos hfa, if_pos (h a hfa)]
        simpa using ih
      · rw [if_neg hfa]
        by_cases hqa : q a = true
        · rw [if_pos hqa]
          exact le_trans ih (Nat.le_succ _)
        · rw [if_neg hqa]
          exact ih

theorem noPyramiding_setState (m : ℕ) (src dst : PosState) (st : Store)
    (hsrc : isActive src = true) (h : NoPyramiding st) :
    NoPyramiding (setState m src dst st) := by
  intro m'
  refine le_trans (length_filter_map_le _ _ ?_ st.positions) (h m')
  intro x hx
  by_cases hm : (x.market == m && x.state == src) = true
  · rw [if_pos hm] at hx
    simp only [Bool.and_eq_true, beq_iff_eq] at hx hm ⊢
    exact ⟨hx.1, by rw [hm.2]; exact hsrc⟩
  · rw [if_neg hm] at hx
    exact hx

theorem noPyramiding_applyOp (op : StoreOp) (st : Store) (h : NoPyramiding st) :
    NoPyramiding (applyOp op st) := by
  cases op with
  | openEntry m =>
      show NoPyramiding
        (if st.positions.any (fun p => p.market == m && isActive p.state) then st
         else ⟨⟨m, PosState.PENDING_ENTRY⟩ :: st.positions⟩)
      by_cases hg : st.positions.any (fun p => p.market == m && isActive p.state) = true
      · rw [if_pos hg]
        exact h
      · rw [if_neg hg]
        intro m'
        simp only [List.filter_cons]
        by_cases hnew : ((⟨m, PosState.PENDING_ENTRY⟩ : StoredPos).market == m' &&
            isActive (⟨m, PosState.PENDING_ENTRY⟩ : StoredPos).state) = true
        · rw [if_pos hnew]
          simp only [Bool.and_eq_true, beq_iff_eq] at hnew
          have hmm : m' = m := hnew.1.symm
          subst hmm
          have hempty :
              (st.positions.filter (fun p => p.market == m' && isActive p.state)) = [] := by
            rw [List.filter_eq_nil_iff]
            intro p hp
            intro hpq
            exact hg (List.any_eq_true.mpr ⟨p, hp, hpq⟩)
          rw [hempty]
          simp
        · rw [if_neg hnew]
          exact h m'
  | fillEntry m => exact noPyramiding_setState m _ _ st (by decide) h
  | requestExit m => exact noPyramiding_setState m _ _ st (by decide) h
  | closePos m => exact noPyramiding_setState m _ _ st (by decide) h

/-- Claim C2: every transactional operation of the Position & Ledger Store
preserves the invariant that each market has at most one position in a
lifecycle state among `PENDING_ENTRY`, `OPEN`, `PENDING_EXIT`; consequently
every store reachable by a serialized history of operations from the empty
store satisfies it (the store serializes concurrent tick processing, so any
concurrent execution is such a history). -/
theorem claim_C2 :
    (∀ (op : StoreOp) (st : Store), NoPyramiding st → NoPyramiding (applyOp op st)) ∧
    (∀ ops : List StoreOp, NoPyramiding (runOps ⟨[]⟩ ops)) := by
  have hrun : ∀ (ops : List StoreOp) (st : Store), NoPyramiding st →
      NoPyramiding (runOps st ops) := by
    intro ops
    induction ops with
    | nil => intro st h; exact h
    | cons op tl ih =>
        intro st h
        exact ih (applyOp op st) (noPyramiding_applyOp op st h)
  exact ⟨noPyramiding_applyOp, fun ops => hrun ops ⟨[]⟩ (fun m => by simp [NoPyramiding])⟩

/-- Witness for C2: opening an entry twice for the same market on the empty
store leaves at most one active position per market. -/
theorem claim_C2_witness :
    NoPyramiding (runOps ⟨[]⟩ [StoreOp.openEntry 7, StoreOp.openEntry 7,
      StoreOp.fillEntry 7]) :=
  claim_C2.2 [StoreOp.openEntry 7, StoreOp.openEntry 7, StoreOp.fillEntry 7]
